import Mathlib

/-!
Verification of the PayPal billing integration layer of the fxa repository.

The code under verification:
* `packages/fxa-auth-server/lib/payments/paypal-client.ts` — the NVP RPC
  client (codec `objectToNVP` / `nvpToObject`, shared request primitive
  `doRequest`, single-purpose `ipnVerify`).
* The billing reconciliation helper (`PayPalHelper` with `processInvoice` /
  `processZeroInvoice`), whose implementation file is not part of the
  source snapshot; it is modelled from the specification and its test
  suite `packages/fxa-auth-server/test/local/payments/paypal.js`.

Strings are modelled at byte level (`Str := List Nat`, each element a byte
value), which is the faithful view of the wire payloads handled by
`querystring.stringify` / `querystring.parse`.  Network transport is
modelled by an oracle `Nat → Transport` giving the outcome of each
successive POST attempt, and the functions return the list of POSTs they
perform together with their result, so that retry behaviour is visible in
the model.
-/

namespace FxaPaypal

/-- Byte strings: the model of JS strings / Buffers on the NVP wire. -/
abbrev Str := List Nat

/-- Byte string literal helper: code points of an ASCII Lean literal. -/
def bytesOf (s : String) : Str := s.toList.map Char.toNat

/-- Uppercase ASCII letter test, the `[A-Z]` class of the `L_LIST` regex. -/
def isUpperByte (b : Nat) : Bool := 65 ≤ b && b ≤ 90

/-- ASCII digit test, the `\d` class of the `L_LIST` regex. -/
def isDigitByte (b : Nat) : Bool := 48 ≤ b && b ≤ 57

/-- Attempt to split a byte string as `[A-Z]+` followed by `\d+` reaching the
end of the string.  Because a digit is never an uppercase letter, the greedy
`[A-Z]+(\d+)$` of the source regex matches a tail exactly when the maximal
leading run of uppercase letters is nonempty and the remainder is a nonempty
all-digit run (shortening the letter run always puts a letter where a digit
is required, so backtracking never succeeds where this fails). -/
def splitLettersDigits (s : Str) : Option (Str × Str) :=
  let letters := s.takeWhile (fun b => isUpperByte b)
  let rest := s.dropWhile (fun b => isUpperByte b)
  if letters ≠ [] ∧ rest ≠ [] ∧ rest.all (fun b => isDigitByte b) then
    some (letters, rest)
  else none

/-- Model of `key.match(L_LIST)` with `L_LIST = /L_([A-Z]+)(\d+)$/`
(paypal-client.ts line 22): scan start positions left to right; at each
position require the literal bytes `L` (76) and `_` (95) followed by a
letters-then-digits tail reaching the end of the key.  Returns the two
capture groups.  The pattern is deliberately not anchored at the start,
exactly as in the source. -/
def lMatch : Str → Option (Str × Str)
  | [] => none
  | _ :: [] => none
  | b :: b2 :: rest =>
    if b = 76 ∧ b2 = 95 then
      match splitLettersDigits rest with
      | some nd => some nd
      | none => lMatch (b2 :: rest)
    else lMatch (b2 :: rest)

/-- Model of `parseInt(indexString)` on an all-digit capture: decimal value. -/
def digitsToNat (ds : Str) : Nat := ds.foldl (fun a b => a * 10 + (b - 48)) 0

/-- Model of a JS object property assignment `obj[k] = v` on an
association list with unique keys: update the value in place when the key
exists, append otherwise. -/
def objInsert : List (Str × Str) → Str → Str → List (Str × Str)
  | [], k, v => [(k, v)]
  | kv :: rest, k, v =>
    if kv.1 = k then (k, v) :: rest else kv :: objInsert rest k v

/-- A decoded list row, e.g. `{NAME: "a"}`: a JS object of string fields. -/
abbrev Row := List (Str × Str)

/-- The sparse JS array `lst` of `nvpToObject`: `none` entries are holes. -/
abbrev SparseRows := List (Option Row)

/-- Model of `if (!lst[index]) lst[index] = {}; lst[index][name] = value`
on a JS array: writing at an index beyond the current length extends the
array to `index + 1`, leaving holes in between. -/
def listSet (lst : SparseRows) (idx : Nat) (name v : Str) : SparseRows :=
  let grown := if lst.length ≤ idx
    then lst ++ List.replicate (idx + 1 - lst.length) none
    else lst
  grown.set idx (some (objInsert ((grown.getD idx none).getD []) name v))

/-- The result of `nvpToObject`: the scalar fields, plus the derived `L`
list which is present exactly when at least one ordinal key was seen
(`if (lst.length !== 0) result['L'] = lst`).  The source stores `L` in the
same loosely-typed record; the typed model keeps it as a separate field. -/
structure NVPDecoded where
  scalars : List (Str × Str)
  lst : Option SparseRows
deriving DecidableEq, Repr

/-- One step of the entry loop of `nvpToObject` (paypal-client.ts lines
207-220): a key with no `L_LIST` match is copied into the scalar result,
a matching key is routed into the sparse row list at the captured index
under the captured name. -/
def nvpEntriesStep (acc : List (Str × Str) × SparseRows) (kv : Str × Str) :
    List (Str × Str) × SparseRows :=
  match lMatch kv.1 with
  | none => (acc.1 ++ [kv], acc.2)
  | some nd => (acc.1, listSet acc.2 (digitsToNat nd.2) nd.1 kv.2)

/-- The entry loop of `nvpToObject` over the already-parsed key/value
entries, plus the final `if (lst.length !== 0) result['L'] = lst`. -/
def nvpEntriesToObject (entries : List (Str × Str)) : NVPDecoded :=
  let acc := entries.foldl nvpEntriesStep ([], [])
  { scalars := acc.1, lst := if acc.2.isEmpty then none else some acc.2 }

/-- Unreserved bytes of Node's `querystring.escape`: ASCII alphanumerics
and `- . _ ~ ! * ' ( )`; every other byte is percent-encoded. -/
def unreservedByte (b : Nat) : Bool :=
  (65 ≤ b && b ≤ 90) || (97 ≤ b && b ≤ 122) || (48 ≤ b && b ≤ 57) ||
  b == 45 || b == 46 || b == 95 || b == 126 || b == 33 || b == 42 ||
  b == 39 || b == 40 || b == 41

/-- Uppercase hex digit byte for a value below 16 ('0'-'9', 'A'-'F'). -/
def hexDigitByte (d : Nat) : Nat := if d < 10 then 48 + d else 55 + d

/-- Percent-encoding of a single byte by `querystring.escape`. -/
def escapeByte (b : Nat) : Str :=
  if unreservedByte b then [b] else [37, hexDigitByte (b / 16), hexDigitByte (b % 16)]

/-- Model of `querystring.escape` on a byte string. -/
def escape (s : Str) : Str := (s.map escapeByte).flatten

/-- Hex digit test of Node's `unescapeBuffer` ('0'-'9', 'A'-'F', 'a'-'f'). -/
def isHexByte (b : Nat) : Bool :=
  (48 ≤ b && b ≤ 57) || (65 ≤ b && b ≤ 70) || (97 ≤ b && b ≤ 102)

/-- Hex digit value (only meaningful on bytes passing `isHexByte`). -/
def hexVal (b : Nat) : Nat :=
  if b ≤ 57 then b - 48 else if b ≤ 70 then b - 55 else b - 87

/-- Model of Node's `unescapeBuffer` as used by `querystring.parse`:
`+` decodes to a space, `%hh` with two hex digits decodes to the byte,
and malformed `%` sequences are kept literally. -/
def unescape : Str → Str
  | [] => []
  | 43 :: rest => 32 :: unescape rest
  | 37 :: h1 :: h2 :: rest =>
    if isHexByte h1 && isHexByte h2 then
      (hexVal h1 * 16 + hexVal h2) :: unescape rest
    else 37 :: unescape (h1 :: h2 :: rest)
  | b :: rest => b :: unescape rest

/-- Split a parse segment at its first `=` (byte 61), when present. -/
def splitFirstEq : Str → Option (Str × Str)
  | [] => none
  | b :: rest =>
    if b = 61 then some ([], rest)
    else (splitFirstEq rest).map (fun p => (b :: p.1, p.2))

/-- One `&`-separated segment of `querystring.parse`: `k=v` yields the
unescaped pair, a nonempty segment without `=` yields an empty value, and
the empty segment contributes nothing. -/
def parseSegment (seg : Str) : Option (Str × Str) :=
  match splitFirstEq seg with
  | some p => some (unescape p.1, unescape p.2)
  | none => if seg.isEmpty then none else some (unescape seg, [])

/-- Model of `querystring.parse(payload, ...)` with unlimited `maxKeys`,
as the ordered list of decoded key/value entries.  A real JS
object collapses duplicate keys into one array-valued property; the entry
list is the faithful view for payloads without duplicate keys, which is
the domain the round-trip and classification theorems quantify over. -/
def nvpParse (payload : Str) : List (Str × Str) :=
  (payload.splitOn 38).foldr
    (fun seg acc =>
      match parseSegment seg with
      | some kv => kv :: acc
      | none => acc)
    []

/-- Model of `objectToNVP` = `querystring.stringify`: escape keys and
values, join each pair with `=` (61) and the pairs with `&` (38). -/
def objectToNVP (obj : List (Str × Str)) : Str :=
  List.intercalate [38] (obj.map (fun kv => escape kv.1 ++ 61 :: escape kv.2))

/-- Model of `nvpToObject` (paypal-client.ts lines 201-225): parse the
payload, then route each entry through the `L_LIST` loop. -/
def nvpToObject (payload : Str) : NVPDecoded :=
  nvpEntriesToObject (nvpParse payload)

/-- `PAYPAL_VERSION = '204'` (paypal-client.ts line 21). -/
def PAYPAL_VERSION : Str := bytesOf ("204")

/-- Client credentials held by `PayPalClient` after construction. -/
structure Credentials where
  user : Str
  pwd : Str
  signature : Str
deriving DecidableEq

/-- `PayPalClient` configuration after the constructor ran: the RPC and IPN
endpoint URLs (selected once from the sandbox flag) and the transport retry
count (`retryOptions.retries`, default 3). -/
structure RpcConfig where
  creds : Credentials
  url : Str
  ipnUrl : Str
  retries : Nat
deriving DecidableEq

/-- Outcome of one HTTP POST attempt, supplied by the transport oracle:
either a transport failure or a raw response text. -/
inductive Transport
  | fail
  | ok (raw : Str)
deriving DecidableEq

/-- One POST performed on the wire: target URL and request body. -/
structure PostEvent where
  url : Str
  body : Str
deriving DecidableEq

/-- Model of `pRetry` over the transport oracle: attempts are strictly
sequential; the loop stops at the first successful attempt and performs at
most `fuel` attempts in total (`fuel = retries + 1`).  Returns the number
of attempts performed and the first successful raw response, if any. -/
def runRetry (oracle : Nat → Transport) (start : Nat) : Nat → Nat × Option Str
  | 0 => (0, none)
  | fuel + 1 =>
    match oracle start with
    | .ok raw => (1, some raw)
    | .fail =>
      let r := runRetry oracle (start + 1) fuel
      (r.1 + 1, r.2)

/-- `p-retry` called with no options uses its default of 10 retries
(11 attempts in total); `ipnVerify` passes no options to `pRetry`. -/
def pRetryDefaultRetries : Nat := 10

/-- Errors surfaced by `doRequest`: transport failure after the retry
budget is exhausted, or a `PayPalClientError` carrying the raw response
text and the decoded map (paypal-client.ts lines 156-170, 251). -/
inductive DoRequestError
  | transport
  | payPalClientError (raw : Str) (data : NVPDecoded)
deriving DecidableEq

/-- The object spread `... data` followed by the literal properties
`USER, METHOD, PWD, SIGNATURE, VERSION` (paypal-client.ts lines 231-238):
the five protocol fields overwrite any entries of the caller's data map. -/
def buildRequestObject (c : Credentials) (method : Str) (data : List (Str × Str)) :
    List (Str × Str) :=
  objInsert (objInsert (objInsert (objInsert (objInsert data
    (bytesOf ("USER")) c.user)
    (bytesOf ("METHOD")) method)
    (bytesOf ("PWD")) c.pwd)
    (bytesOf ("SIGNATURE")) c.signature)
    (bytesOf ("VERSION")) PAYPAL_VERSION

/-- The ACK test of `doRequest` (paypal-client.ts line 248):
`resultObj.ACK === 'Success' || resultObj.ACK === 'SuccessWithWarning'`. -/
def ackSuccess (obj : NVPDecoded) : Bool :=
  List.lookup (bytesOf ("ACK")) obj.scalars == some (bytesOf ("Success")) ||
  List.lookup (bytesOf ("ACK")) obj.scalars == some (bytesOf ("SuccessWithWarning"))

/-- Model of the shared request primitive `doRequest` (paypal-client.ts
lines 227-253): build the NVP payload with the protocol fields merged in,
POST it to the RPC URL under the transport retry loop, decode the first
successful response and classify it by ACK.  Returns the POSTs performed
and the classified outcome. -/
def doRequest (cfg : RpcConfig) (oracle : Nat → Transport) (method : Str)
    (data : List (Str × Str)) : List PostEvent × Except DoRequestError NVPDecoded :=
  let payload := objectToNVP (buildRequestObject cfg.creds method data)
  let r := runRetry oracle 0 (cfg.retries + 1)
  let posts := List.replicate r.1 { url := cfg.url, body := payload }
  match r.2 with
  | none => (posts, .error .transport)
  | some raw =>
    let resultObj := nvpToObject raw
    if ackSuccess resultObj then (posts, .ok resultObj)
    else (posts, .error (.payPalClientError raw resultObj))

/-- Model of `ipnVerify` (paypal-client.ts lines 350-356): POST
`'cmd=_notify-validate&' + message` to the IPN URL inside `pRetry` called
with no options (hence the p-retry default retry budget), and return the
raw text of the first successful response. -/
def ipnVerify (cfg : RpcConfig) (oracle : Nat → Transport) (message : Str) :
    List PostEvent × Option Str :=
  let verifyBody := bytesOf ("cmd=_notify-validate&") ++ message
  let r := runRetry oracle 0 (pRetryDefaultRetries + 1)
  (List.replicate r.1 { url := cfg.ipnUrl, body := verifyBody }, r.2)

/-- Decimal rendering of a non-negative JS number, as produced by string
concatenation `invoice.id + paymentAttempts`. -/
def natDecimalBytes (n : Nat) : Str :=
  if n = 0 then [48] else (Nat.digits 10 n).reverse.map (fun d => 48 + d)

/-- Modelled from the spec: the invoice record as read by the
reconciliation helper (`lib/payments/paypal.ts` is absent from the source
snapshot) — identifier, status string, and amount due.  Amounts are
modelled at integer granularity; the helper only ever stringifies the
amount and forwards it. -/
structure Invoice where
  id : Str
  status : Str
  amount_due : Nat
deriving DecidableEq

/-- Modelled from the spec: the charge-attempt outcome returned by
`chargeCustomer` — PayPal's payment status vocabulary plus the
transaction id. -/
structure ChargeOutcome where
  paymentStatus : Str
  transactionId : Str
deriving DecidableEq

/-- Modelled from the spec: one call to the external ledger collaborator
(the Stripe helper) recorded in the helper's call trace. -/
inductive LedgerCall
  | getCustomerPaypalAgreement
  | finalizeInvoice
  | getPaymentAttempts
  | updateInvoiceWithPaypalTransactionId (txnId : Str)
  | payInvoiceOutOfBand
  | updatePaymentAttempts
deriving DecidableEq

/-- Modelled from the spec: the argument record of one `chargeCustomer`
call (which is a pass-through to the `DoReferenceTransaction` RPC). -/
structure ChargeCall where
  amount : Str
  billingAgreementId : Str
  invoiceNumber : Str
  idempotencyKey : Str
deriving DecidableEq

/-- Modelled from the spec: the responses the external ledger collaborator
gives to the helper's reads and mutations during one run — the stored
agreement id, the current payment-attempt counter, and the opaque outcome
values of the three mutating calls. -/
structure LedgerOracle (α : Type) where
  agreement : Option Str
  attempts : Nat
  finalizeRes : α
  updateTxnRes : α
  payRes : α

/-- Modelled from the spec: the error taxonomy of the reconciliation
helper — internal validation errors (operation name, message, optional
offending transaction status, matching
`error.internalValidationError('processInvoice', ...)` in the tests),
the payment-failed error, and client errors propagated unchanged. -/
inductive HelperError
  | internalValidation (op : Str) (message : Str) (transactionResponse : Option Str)
  | paymentFailed
  | clientError (e : DoRequestError)
deriving DecidableEq

/-- Modelled from the spec: the observable behaviour of one
`processInvoice` run — its result (the pair of ledger outcomes on
`Completed`, no value on `Pending`/`In-Progress`, or an error), the
ledger calls made before the charge RPC, the charge RPC calls, and the
ledger calls made after the charge. -/
structure ProcTrace (α : Type) where
  result : Except HelperError (Option (α × α))
  preCharge : List LedgerCall
  charges : List ChargeCall
  postCharge : List LedgerCall

/-- Modelled from the spec: `processInvoice` of the reconciliation helper
(steps 1-6 of §4.3 of the spec, matching the test suite): resolve the
agreement id or fail; validate the status or fail; finalize a draft
invoice; derive the idempotency key `invoice.id + paymentAttempts`;
charge; branch on the returned payment status. -/
def processInvoice {α : Type} (L : LedgerOracle α) (inv : Invoice)
    (chargeRes : Except DoRequestError ChargeOutcome) : ProcTrace α :=
  match L.agreement with
  | none =>
    { result := .error (.internalValidation (bytesOf ("processInvoice"))
        (bytesOf ("Agreement ID not found.")) none)
      preCharge := [.getCustomerPaypalAgreement], charges := [], postCharge := [] }
  | some agreementId =>
    if inv.status = bytesOf ("draft") ∨ inv.status = bytesOf ("open") then
      let pre := [LedgerCall.getCustomerPaypalAgreement] ++
        (if inv.status = bytesOf ("draft") then [LedgerCall.finalizeInvoice] else []) ++
        [LedgerCall.getPaymentAttempts]
      let call : ChargeCall :=
        { amount := natDecimalBytes inv.amount_due
          billingAgreementId := agreementId
          invoiceNumber := inv.id
          idempotencyKey := inv.id ++ natDecimalBytes L.attempts }
      match chargeRes with
      | .error e =>
        { result := .error (.clientError e), preCharge := pre
          charges := [call], postCharge := [] }
      | .ok outcome =>
        if outcome.paymentStatus = bytesOf ("Completed") then
          { result := .ok (some (L.updateTxnRes, L.payRes))
            preCharge := pre, charges := [call]
            postCharge := [.updateInvoiceWithPaypalTransactionId outcome.transactionId,
              .payInvoiceOutOfBand] }
        else if outcome.paymentStatus = bytesOf ("Pending") ∨
            outcome.paymentStatus = bytesOf ("In-Progress") then
          { result := .ok none, preCharge := pre, charges := [call], postCharge := [] }
        else if outcome.paymentStatus = bytesOf ("Denied") ∨
            outcome.paymentStatus = bytesOf ("Failed") ∨
            outcome.paymentStatus = bytesOf ("Voided") ∨
            outcome.paymentStatus = bytesOf ("Expired") then
          { result := .error .paymentFailed, preCharge := pre, charges := [call]
            postCharge := [.updatePaymentAttempts] }
        else
          { result := .error (.internalValidation (bytesOf ("processInvoice"))
              (bytesOf ("Unexpected PayPal transaction response."))
              (some outcome.paymentStatus))
            preCharge := pre, charges := [call], postCharge := [] }
    else
      { result := .error (.internalValidation (bytesOf ("processInvoice"))
          (bytesOf ("Invoice in invalid state.")) none)
        preCharge := [.getCustomerPaypalAgreement], charges := [], postCharge := [] }

/-- Modelled from the spec: `processZeroInvoice` — finalize the invoice
and mark it paid out-of-band via the ledger, without contacting PayPal;
the pair of ledger outcomes is returned, together with the ledger call
trace and the (empty) charge RPC trace. -/
def processZeroInvoice {α : Type} (L : LedgerOracle α) (_inv : Invoice) :
    (α × α) × List LedgerCall × List ChargeCall :=
  ((L.finalizeRes, L.payRes), [.finalizeInvoice, .payInvoiceOutOfBand], [])

/-- C9: for every invoice with zero amount due, `processZeroInvoice` calls
`finalizeInvoice` and `payInvoiceOutOfBand` exactly once each, never
invokes the charge RPC, and returns the pair of the two ledger outcomes. -/
theorem processZeroInvoice_finalizes_and_pays {α : Type} (L : LedgerOracle α)
    (inv : Invoice) (h0 : inv.amount_due = 0) :
    processZeroInvoice L inv =
      ((L.finalizeRes, L.payRes),
       [LedgerCall.finalizeInvoice, LedgerCall.payInvoiceOutOfBand], []) ∧
    (processZeroInvoice L inv).2.1.count LedgerCall.finalizeInvoice = 1 ∧
    (processZeroInvoice L inv).2.1.count LedgerCall.payInvoiceOutOfBand = 1 ∧
    (processZeroInvoice L inv).2.2 = [] := by
  refine ⟨rfl, rfl, rfl, rfl⟩

/-- Witness for C9 at a concrete zero-amount invoice and ledger oracle. -/
theorem processZeroInvoice_finalizes_and_pays_witness :
    processZeroInvoice (α := Nat)
      { agreement := some (bytesOf ("B-123")), attempts := 0,
        finalizeRes := 1, updateTxnRes := 2, payRes := 3 }
      { id := bytesOf ("inv_0000000000"), status := bytesOf ("open"), amount_due := 0 } =
      ((1, 3), [LedgerCall.finalizeInvoice, LedgerCall.payInvoiceOutOfBand], []) :=
  (processZeroInvoice_finalizes_and_pays _ _ rfl).1

/-- C6: `processInvoice` fails fast with no charge RPC and no ledger
mutation when the preconditions are unmet: a missing agreement id yields
the "Agreement ID not found." validation error after only the agreement
read, and an invoice status outside draft/open yields the "Invoice in
invalid state." validation error after only the agreement read, with zero
RPC calls in both cases. -/
theorem processInvoice_precondition_failfast {α : Type} (L : LedgerOracle α)
    (inv : Invoice) (c : Except DoRequestError ChargeOutcome) :
    (L.agreement = none →
      processInvoice L inv c =
        { result := .error (.internalValidation (bytesOf ("processInvoice"))
            (bytesOf ("Agreement ID not found.")) none)
          preCharge := [.getCustomerPaypalAgreement], charges := [], postCharge := [] }) ∧
    (∀ a, L.agreement = some a →
      inv.status ≠ bytesOf ("draft") → inv.status ≠ bytesOf ("open") →
      processInvoice L inv c =
        { result := .error (.internalValidation (bytesOf ("processInvoice"))
            (bytesOf ("Invoice in invalid state.")) none)
          preCharge := [.getCustomerPaypalAgreement], charges := [], postCharge := [] }) := by
  constructor
  · intro hA
    simp [processInvoice, hA]
  · intro a hA h1 h2
    simp [processInvoice, hA, h1, h2]

/-- Witness for C6: a run with no agreement on file and a run on a `paid`
invoice, both failing fast. -/
theorem processInvoice_precondition_failfast_witness :
    processInvoice (α := Nat)
      { agreement := none, attempts := 0, finalizeRes := 0, updateTxnRes := 0, payRes := 0 }
      { id := bytesOf ("inv_0000000000"), status := bytesOf ("open"), amount_due := 499 }
      (.error .transport) =
      { result := .error (.internalValidation (bytesOf ("processInvoice"))
          (bytesOf ("Agreement ID not found.")) none)
        preCharge := [.getCustomerPaypalAgreement], charges := [], postCharge := [] } ∧
    processInvoice (α := Nat)
      { agreement := some (bytesOf ("agreement-id")), attempts := 0,
        finalizeRes := 0, updateTxnRes := 0, payRes := 0 }
      { id := bytesOf ("inv_0000000000"), status := bytesOf ("paid"), amount_due := 499 }
      (.error .transport) =
      { result := .error (.internalValidation (bytesOf ("processInvoice"))
          (bytesOf ("Invoice in invalid state.")) none)
        preCharge := [.getCustomerPaypalAgreement], charges := [], postCharge := [] } :=
  ⟨(processInvoice_precondition_failfast _ _ _).1 rfl,
   (processInvoice_precondition_failfast _ _ _).2 (bytesOf ("agreement-id")) rfl
     (by decide) (by decide)⟩

/-- C1: once a `processInvoice` run reaches the charge step (agreement on
file, status draft or open) the charge outcome is branched exhaustively on
`paymentStatus`: Completed updates the invoice with the transaction id and
pays it out of band, returning both outcomes; Pending and In-Progress
mutate nothing and return no value; Denied, Failed, Voided and Expired
record exactly one `updatePaymentAttempts` call and fail with the
payment-failed error; any other status fails with an internal-validation
error carrying the status string, with no ledger mutation. -/
theorem processInvoice_charge_branching {α : Type} (L : LedgerOracle α) (inv : Invoice)
    (o : ChargeOutcome) (a : Str) (hA : L.agreement = some a)
    (hS : inv.status = bytesOf ("draft") ∨ inv.status = bytesOf ("open")) :
    (o.paymentStatus = bytesOf ("Completed") →
      (processInvoice L inv (.ok o)).result = .ok (some (L.updateTxnRes, L.payRes)) ∧
      (processInvoice L inv (.ok o)).postCharge =
        [.updateInvoiceWithPaypalTransactionId o.transactionId, .payInvoiceOutOfBand]) ∧
    (o.paymentStatus = bytesOf ("Pending") ∨ o.paymentStatus = bytesOf ("In-Progress") →
      (processInvoice L inv (.ok o)).result = .ok none ∧
      (processInvoice L inv (.ok o)).postCharge = []) ∧
    (o.paymentStatus = bytesOf ("Denied") ∨ o.paymentStatus = bytesOf ("Failed") ∨
     o.paymentStatus = bytesOf ("Voided") ∨ o.paymentStatus = bytesOf ("Expired") →
      (processInvoice L inv (.ok o)).result = .error .paymentFailed ∧
      (processInvoice L inv (.ok o)).postCharge = [.updatePaymentAttempts]) ∧
    (o.paymentStatus ≠ bytesOf ("Completed") →
     o.paymentStatus ≠ bytesOf ("Pending") → o.paymentStatus ≠ bytesOf ("In-Progress") →
     o.paymentStatus ≠ bytesOf ("Denied") → o.paymentStatus ≠ bytesOf ("Failed") →
     o.paymentStatus ≠ bytesOf ("Voided") → o.paymentStatus ≠ bytesOf ("Expired") →
      (processInvoice L inv (.ok o)).result = .error (.internalValidation
        (bytesOf ("processInvoice")) (bytesOf ("Unexpected PayPal transaction response."))
        (some o.paymentStatus)) ∧
      (processInvoice L inv (.ok o)).postCharge = []) := by
  refine ⟨?_, ?_, ?_, ?_⟩
  · intro h
    rcases hS with hS | hS <;> simp [processInvoice, hA, hS, h]
  · intro h
    rcases hS with hS | hS <;> rcases h with h | h <;>
      simp [processInvoice, hA, hS, h, bytesOf]
  · intro h
    rcases hS with hS | hS <;> rcases h with h | h | h | h <;>
      simp [processInvoice, hA, hS, h, bytesOf]
  · intro h1 h2 h3 h4 h5 h6 h7
    rcases hS with hS | hS <;>
      simp [processInvoice, hA, hS, h1, h2, h3, h4, h5, h6, h7]

/-- Witness for C1: a concrete Completed run on an open invoice. -/
theorem processInvoice_charge_branching_witness :
    (processInvoice (α := Nat)
      { agreement := some (bytesOf ("agreement-id")), attempts := 0,
        finalizeRes := 0, updateTxnRes := 7, payRes := 8 }
      { id := bytesOf ("inv_0000000000"), status := bytesOf ("open"), amount_due := 499 }
      (.ok { paymentStatus := bytesOf ("Completed"),
             transactionId := bytesOf ("transaction-id") })).result =
      .ok (some (7, 8)) ∧
    (processInvoice (α := Nat)
      { agreement := some (bytesOf ("agreement-id")), attempts := 0,
        finalizeRes := 0, updateTxnRes := 7, payRes := 8 }
      { id := bytesOf ("inv_0000000000"), status := bytesOf ("open"), amount_due := 499 }
      (.ok { paymentStatus := bytesOf ("Completed"),
             transactionId := bytesOf ("transaction-id") })).postCharge =
      [.updateInvoiceWithPaypalTransactionId (bytesOf ("transaction-id")),
       .payInvoiceOutOfBand] :=
  (processInvoice_charge_branching _ _ _ (bytesOf ("agreement-id")) rfl
    (Or.inr rfl)).1 rfl

/-- Distinct numbers have distinct decimal renderings. -/
theorem natDecimalBytes_injective : Function.Injective natDecimalBytes := by
  have key : ∀ k : Nat, k ≠ 0 → natDecimalBytes k = [48] → False := by
    intro k hk h
    unfold natDecimalBytes at h
    rw [if_neg hk] at h
    have hlen : (Nat.digits 10 k).length = 1 := by
      have hc := congrArg List.length h
      simpa using hc
    obtain ⟨d, hd⟩ := List.length_eq_one.1 hlen
    rw [hd] at h
    simp at h
    have hk0 : k = Nat.ofDigits 10 [d] := by rw [← hd, Nat.ofDigits_digits]
    simp [Nat.ofDigits] at hk0
    omega
  intro m n h
  by_cases hm : m = 0 <;> by_cases hn : n = 0
  · omega
  · exact absurd h.symm (fun hh => key n hn (by rw [hh]; simp [natDecimalBytes, hm]))
  · exact absurd h (fun hh => key m hm (by rw [hh]; simp [natDecimalBytes, hn]))
  · have hinj : Function.Injective (fun d : Nat => 48 + d) := by
      intro x y hxy
      simpa using hxy
    unfold natDecimalBytes at h
    rw [if_neg hm, if_neg hn] at h
    have h2 : (Nat.digits 10 m).reverse = (Nat.digits 10 n).reverse :=
      List.map_injective_iff.2 hinj h
    have h3 : Nat.digits 10 m = Nat.digits 10 n := List.reverse_injective h2
    have h4 := congrArg (Nat.ofDigits 10) h3
    rwa [Nat.ofDigits_digits, Nat.ofDigits_digits] at h4

/-- In every run that reaches the charge step, exactly one charge RPC is
issued, and its argument record is determined by the invoice, the
agreement id and the ledger's attempt counter; in particular the
idempotency key is the concatenation `invoice.id + paymentAttempts`. -/
theorem processInvoice_charges {α : Type} (L : LedgerOracle α) (inv : Invoice)
    (c : Except DoRequestError ChargeOutcome) (a : Str) (hA : L.agreement = some a)
    (hS : inv.status = bytesOf ("draft") ∨ inv.status = bytesOf ("open")) :
    (processInvoice L inv c).charges =
      [{ amount := natDecimalBytes inv.amount_due, billingAgreementId := a,
         invoiceNumber := inv.id,
         idempotencyKey := inv.id ++ natDecimalBytes L.attempts }] := by
  rcases c with e | o
  · rcases hS with hS | hS <;> simp [processInvoice, hA, hS]
  · rcases hS with hS | hS <;> simp only [processInvoice, hA, hS] <;>
      split_ifs <;> simp_all

/-- C2: the idempotency key of `processInvoice` is the deterministic
concatenation `invoice.id + paymentAttempts`: two runs on the same invoice
with the same ledger attempt counter issue their single charge RPC with
the same key; a terminal charge failure records an `updatePaymentAttempts`
call; and once the counter has been incremented the derived key differs. -/
theorem processInvoice_idempotency_key {α : Type} (L L2 : LedgerOracle α) (inv : Invoice)
    (c c2 : Except DoRequestError ChargeOutcome) (o : ChargeOutcome) (a a2 : Str) (n : Nat)
    (hA : L.agreement = some a) (hA2 : L2.agreement = some a2)
    (hS : inv.status = bytesOf ("draft") ∨ inv.status = bytesOf ("open"))
    (hEq : L.attempts = L2.attempts)
    (hTerm : o.paymentStatus = bytesOf ("Denied") ∨ o.paymentStatus = bytesOf ("Failed") ∨
      o.paymentStatus = bytesOf ("Voided") ∨ o.paymentStatus = bytesOf ("Expired")) :
    ((processInvoice L inv c).charges.map ChargeCall.idempotencyKey =
      [inv.id ++ natDecimalBytes L.attempts] ∧
     (processInvoice L2 inv c2).charges.map ChargeCall.idempotencyKey =
      [inv.id ++ natDecimalBytes L.attempts]) ∧
    LedgerCall.updatePaymentAttempts ∈ (processInvoice L inv (.ok o)).postCharge ∧
    inv.id ++ natDecimalBytes n ≠ inv.id ++ natDecimalBytes (n + 1) := by
  refine ⟨⟨?_, ?_⟩, ?_, ?_⟩
  · rw [processInvoice_charges L inv c a hA hS]
    simp
  · rw [processInvoice_charges L2 inv c2 a2 hA2 hS, hEq]
    simp
  · rcases hS with hS | hS <;> rcases hTerm with h | h | h | h <;>
      simp [processInvoice, hA, hS, h, bytesOf]
  · intro hbad
    have h1 : natDecimalBytes n = natDecimalBytes (n + 1) :=
      List.append_cancel_left hbad
    have h2 := natDecimalBytes_injective h1
    omega

/-- Witness for C2: two runs at attempt counter 0 on the same open
invoice, a Denied outcome, and the key change from counter 0 to 1. -/
theorem processInvoice_idempotency_key_witness :
    ((processInvoice (α := Nat)
       { agreement := some (bytesOf ("agreement-id")), attempts := 0,
         finalizeRes := 0, updateTxnRes := 0, payRes := 0 }
       { id := bytesOf ("inv_0000000000"), status := bytesOf ("open"), amount_due := 499 }
       (.error .transport)).charges.map ChargeCall.idempotencyKey =
      [bytesOf ("inv_0000000000") ++ natDecimalBytes 0] ∧
     (processInvoice (α := Nat)
       { agreement := some (bytesOf ("other-agreement")), attempts := 0,
         finalizeRes := 0, updateTxnRes := 0, payRes := 0 }
       { id := bytesOf ("inv_0000000000"), status := bytesOf ("open"), amount_due := 499 }
       (.ok { paymentStatus := bytesOf ("Completed"),
              transactionId := bytesOf ("t") })).charges.map ChargeCall.idempotencyKey =
      [bytesOf ("inv_0000000000") ++ natDecimalBytes 0]) ∧
    LedgerCall.updatePaymentAttempts ∈ (processInvoice (α := Nat)
       { agreement := some (bytesOf ("agreement-id")), attempts := 0,
         finalizeRes := 0, updateTxnRes := 0, payRes := 0 }
       { id := bytesOf ("inv_0000000000"), status := bytesOf ("open"), amount_due := 499 }
       (.ok { paymentStatus := bytesOf ("Denied"),
              transactionId := bytesOf ("t") })).postCharge ∧
    bytesOf ("inv_0000000000") ++ natDecimalBytes 3 ≠
      bytesOf ("inv_0000000000") ++ natDecimalBytes 4 :=
  processInvoice_idempotency_key _ _ _ _ _
    { paymentStatus := bytesOf ("Denied"), transactionId := bytesOf ("t") }
    (bytesOf ("agreement-id")) (bytesOf ("other-agreement")) 3
    rfl rfl (Or.inr rfl) rfl (Or.inl rfl)

/-- C3 counterexample: `ipnVerify` is wrapped in `pRetry` with no options,
so a failed transport attempt IS retried — on a transport oracle whose
first attempt fails and whose second succeeds, two POSTs are performed,
refuting "exactly one POST ... never retried, even when the transport
attempt fails". -/
theorem ipnVerify_retries_on_transport_failure :
    (ipnVerify
      { creds := { user := bytesOf ("user"), pwd := bytesOf ("pwd"),
                   signature := bytesOf ("sig") }
        url := bytesOf ("https://api-3t.sandbox.paypal.com/nvp")
        ipnUrl := bytesOf ("https://ipnpb.sandbox.paypal.com/cgi-bin/webscr")
        retries := 3 }
      (fun i => if i = 0 then .fail else .ok (bytesOf ("VERIFIED")))
      (bytesOf ("txn_type=merch_pmt"))).1.length = 2 := by
  rfl

/-- The retry loop performs at most `fuel` attempts. -/
theorem runRetry_attempts_le (oracle : Nat → Transport) :
    ∀ (fuel start : Nat), (runRetry oracle start fuel).1 ≤ fuel := by
  intro fuel
  induction fuel with
  | zero => intro start; simp [runRetry]
  | succ f ih =>
    intro start
    simp only [runRetry]
    cases oracle start with
    | ok raw => simp
    | fail => simpa using ih (start + 1)

/-- C3 (amended): every POST performed by `ipnVerify` goes to the IPN
endpoint (never the RPC endpoint) with body
`cmd=_notify-validate&` + message, and the raw text of the first
successful attempt is returned; however the POST is retried on transport
failure under p-retry's default policy (at most 11 attempts): a first
successful attempt gives exactly one POST, while a failed first attempt
followed by a successful second gives exactly two POSTs. -/
theorem ipnVerify_post_shape_and_retry (cfg : RpcConfig) (oracle : Nat → Transport)
    (message raw : Str) :
    (∀ p ∈ (ipnVerify cfg oracle message).1,
       p.url = cfg.ipnUrl ∧ p.body = bytesOf ("cmd=_notify-validate&") ++ message) ∧
    (ipnVerify cfg oracle message).1.length ≤ pRetryDefaultRetries + 1 ∧
    (oracle 0 = .ok raw →
       (ipnVerify cfg oracle message).1.length = 1 ∧
       (ipnVerify cfg oracle message).2 = some raw) ∧
    (oracle 0 = .fail → oracle 1 = .ok raw →
       (ipnVerify cfg oracle message).1.length = 2 ∧
       (ipnVerify cfg oracle message).2 = some raw) := by
  refine ⟨?_, ?_, ?_, ?_⟩
  · intro p hp
    have hpe := List.eq_of_mem_replicate hp
    subst hpe
    exact ⟨rfl, rfl⟩
  · simpa [ipnVerify] using runRetry_attempts_le oracle (pRetryDefaultRetries + 1) 0
  · intro h0
    constructor <;> simp [ipnVerify, pRetryDefaultRetries, runRetry, h0]
  · intro h0 h1
    constructor <;> simp [ipnVerify, pRetryDefaultRetries, runRetry, h0, h1]

/-- Witness for the amended C3: a transport that succeeds immediately
yields a single POST returning VERIFIED. -/
theorem ipnVerify_post_shape_and_retry_witness :
    (ipnVerify
      { creds := { user := bytesOf ("user"), pwd := bytesOf ("pwd"),
                   signature := bytesOf ("sig") }
        url := bytesOf ("https://api-3t.sandbox.paypal.com/nvp")
        ipnUrl := bytesOf ("https://ipnpb.sandbox.paypal.com/cgi-bin/webscr")
        retries := 3 }
      (fun _ => .ok (bytesOf ("VERIFIED")))
      (bytesOf ("txn_type=merch_pmt"))).1.length = 1 ∧
    (ipnVerify
      { creds := { user := bytesOf ("user"), pwd := bytesOf ("pwd"),
                   signature := bytesOf ("sig") }
        url := bytesOf ("https://api-3t.sandbox.paypal.com/nvp")
        ipnUrl := bytesOf ("https://ipnpb.sandbox.paypal.com/cgi-bin/webscr")
        retries := 3 }
      (fun _ => .ok (bytesOf ("VERIFIED")))
      (bytesOf ("txn_type=merch_pmt"))).2 = some (bytesOf ("VERIFIED")) :=
  (ipnVerify_post_shape_and_retry _ (fun _ => .ok (bytesOf ("VERIFIED")))
    (bytesOf ("txn_type=merch_pmt")) (bytesOf ("VERIFIED"))).2.2.1 rfl

/-- Looking up the inserted key finds the inserted value. -/
theorem lookup_objInsert_self (m : List (Str × Str)) (k v : Str) :
    List.lookup k (objInsert m k v) = some v := by
  induction m with
  | nil => simp [objInsert, List.lookup]
  | cons kv rest ih =>
    obtain ⟨k1, v1⟩ := kv
    by_cases h : k1 = k
    · subst h
      simp [objInsert, List.lookup]
    · have hbeq : (k == k1) = false := beq_eq_false_iff_ne.2 (fun hh => h hh.symm)
      simp [objInsert, h, List.lookup, hbeq, ih]

/-- Inserting one key leaves lookups of other keys unchanged. -/
theorem lookup_objInsert_other (m : List (Str × Str)) (k k2 v : Str) (h : k2 ≠ k) :
    List.lookup k2 (objInsert m k v) = List.lookup k2 m := by
  have hbeq : (k2 == k) = false := beq_eq_false_iff_ne.2 h
  induction m with
  | nil => simp [objInsert, List.lookup, hbeq]
  | cons kv rest ih =>
    obtain ⟨k1, v1⟩ := kv
    by_cases hk : k1 = k
    · subst hk
      simp [objInsert, List.lookup, hbeq]
    · cases hq : (k2 == k1) <;> simp [objInsert, hk, List.lookup, hq, ih]

/-- C7: the request object built by `doRequest` carries the client's
USER, PWD and SIGNATURE credentials, METHOD equal to the RPC method name
and VERSION "204", for every caller-supplied data map — the literal
properties written after the spread overwrite any caller entries under
those names, so callers cannot override the protocol constants. -/
theorem buildRequestObject_protocol_fields (c : Credentials) (method : Str)
    (data : List (Str × Str)) :
    List.lookup (bytesOf ("USER")) (buildRequestObject c method data) = some c.user ∧
    List.lookup (bytesOf ("METHOD")) (buildRequestObject c method data) = some method ∧
    List.lookup (bytesOf ("PWD")) (buildRequestObject c method data) = some c.pwd ∧
    List.lookup (bytesOf ("SIGNATURE")) (buildRequestObject c method data) =
      some c.signature ∧
    List.lookup (bytesOf ("VERSION")) (buildRequestObject c method data) =
      some (bytesOf ("204")) := by
  have hUV : bytesOf ("USER") ≠ bytesOf ("VERSION") := by decide
  have hUS : bytesOf ("USER") ≠ bytesOf ("SIGNATURE") := by decide
  have hUP : bytesOf ("USER") ≠ bytesOf ("PWD") := by decide
  have hUM : bytesOf ("USER") ≠ bytesOf ("METHOD") := by decide
  have hMV : bytesOf ("METHOD") ≠ bytesOf ("VERSION") := by decide
  have hMS : bytesOf ("METHOD") ≠ bytesOf ("SIGNATURE") := by decide
  have hMP : bytesOf ("METHOD") ≠ bytesOf ("PWD") := by decide
  have hPV : bytesOf ("PWD") ≠ bytesOf ("VERSION") := by decide
  have hPS : bytesOf ("PWD") ≠ bytesOf ("SIGNATURE") := by decide
  have hSV : bytesOf ("SIGNATURE") ≠ bytesOf ("VERSION") := by decide
  unfold buildRequestObject
  refine ⟨?_, ?_, ?_, ?_, ?_⟩
  · rw [lookup_objInsert_other _ _ _ _ hUV, lookup_objInsert_other _ _ _ _ hUS,
      lookup_objInsert_other _ _ _ _ hUP, lookup_objInsert_other _ _ _ _ hUM,
      lookup_objInsert_self]
  · rw [lookup_objInsert_other _ _ _ _ hMV, lookup_objInsert_other _ _ _ _ hMS,
      lookup_objInsert_other _ _ _ _ hMP, lookup_objInsert_self]
  · rw [lookup_objInsert_other _ _ _ _ hPV, lookup_objInsert_other _ _ _ _ hPS,
      lookup_objInsert_self]
  · rw [lookup_objInsert_other _ _ _ _ hSV, lookup_objInsert_self]
  · rw [lookup_objInsert_self]
    rfl

/-- C5: for every RPC method and caller data map, once the transport
layer has produced a raw response, `doRequest` returns the decoded
response exactly when its ACK field is `Success` or `SuccessWithWarning`;
for `Failure`, `FailureWithWarning` or any other (or missing) ACK value it
fails with a `PayPalClientError` carrying the raw response text unaltered
together with the decoded map; and the number of POSTs performed is the
attempt count determined by the transport oracle alone, so a business
rejection is never retried.  The duplicate-key hypothesis keeps the
statement on the domain where the entry-list model of `querystring.parse`
agrees with the real JS object (duplicate keys become array values there). -/
theorem doRequest_ack_classification (cfg : RpcConfig) (oracle : Nat → Transport)
    (method : Str) (data : List (Str × Str)) (n : Nat) (raw : Str)
    (hT : runRetry oracle 0 (cfg.retries + 1) = (n, some raw))
    (hdup : ((nvpParse raw).map Prod.fst).Nodup) :
    ((doRequest cfg oracle method data).2 = .ok (nvpToObject raw) ↔
      (List.lookup (bytesOf ("ACK")) (nvpToObject raw).scalars =
        some (bytesOf ("Success")) ∨
       List.lookup (bytesOf ("ACK")) (nvpToObject raw).scalars =
        some (bytesOf ("SuccessWithWarning")))) ∧
    (¬ (List.lookup (bytesOf ("ACK")) (nvpToObject raw).scalars =
        some (bytesOf ("Success")) ∨
        List.lookup (bytesOf ("ACK")) (nvpToObject raw).scalars =
        some (bytesOf ("SuccessWithWarning"))) →
      (doRequest cfg oracle method data).2 =
        .error (.payPalClientError raw (nvpToObject raw))) ∧
    (doRequest cfg oracle method data).1.length = n := by
  have hack : ackSuccess (nvpToObject raw) = true ↔
      (List.lookup (bytesOf ("ACK")) (nvpToObject raw).scalars =
        some (bytesOf ("Success")) ∨
       List.lookup (bytesOf ("ACK")) (nvpToObject raw).scalars =
        some (bytesOf ("SuccessWithWarning"))) := by
    simp [ackSuccess]
  refine ⟨?_, ?_, ?_⟩
  · constructor
    · intro hok
      by_cases hsucc : ackSuccess (nvpToObject raw) = true
      · exact hack.1 hsucc
      · exfalso
        simp only [doRequest, hT] at hok
        rw [if_neg hsucc] at hok
        exact Except.noConfusion hok
    · intro hdisj
      simp only [doRequest, hT]
      rw [if_pos (hack.2 hdisj)]
  · intro hdisj
    have hsucc : ackSuccess (nvpToObject raw) = false := by
      rcases hfs : ackSuccess (nvpToObject raw) with _ | _
      · rfl
      · exact absurd (hack.1 hfs) hdisj
    simp only [doRequest, hT]
    rw [if_neg (by simp [hsucc])]
  · simp only [doRequest, hT]
    split <;> simp

/-- Witness for C5: a successful transport attempt returning ACK=Success
is classified as a success. -/
theorem doRequest_ack_classification_witness :
    (doRequest
      { creds := { user := bytesOf ("user"), pwd := bytesOf ("pwd"),
                   signature := bytesOf ("sig") }
        url := bytesOf ("https://api-3t.sandbox.paypal.com/nvp")
        ipnUrl := bytesOf ("https://ipnpb.sandbox.paypal.com/cgi-bin/webscr")
        retries := 3 }
      (fun _ => .ok (bytesOf ("ACK=Success&BUILD=55251101")))
      (bytesOf ("DoReferenceTransaction")) []).2 =
      .ok (nvpToObject (bytesOf ("ACK=Success&BUILD=55251101"))) :=
  ((doRequest_ack_classification _
    (fun _ => .ok (bytesOf ("ACK=Success&BUILD=55251101")))
    (bytesOf ("DoReferenceTransaction")) [] 1
    (bytesOf ("ACK=Success&BUILD=55251101")) rfl (by decide)).1).2
    (Or.inl (by decide))

/-- `listSet` never produces the empty array: the assignment extends the
array to at least `idx + 1` entries. -/
theorem listSet_ne_nil (l : SparseRows) (j : Nat) (nm v : Str) :
    listSet l j nm v ≠ [] := by
  apply List.ne_nil_of_length_pos
  by_cases hj : l.length ≤ j <;> simp [listSet, hj, List.length_set] <;> omega

/-- The derived list has, at index `i`, a row containing field `name`. -/
def rowHas (l : SparseRows) (i : Nat) (name : Str) : Prop :=
  ∃ row, l.getD i none = some row ∧ (List.lookup name row).isSome = true

/-- An occupied index lies within the array. -/
theorem rowHas_lt_length (l : SparseRows) (i : Nat) (name : Str)
    (h : rowHas l i name) : i < l.length := by
  obtain ⟨row, hrow, -⟩ := h
  by_contra hge
  rw [List.getD_eq_default _ _ (by omega)] at hrow
  exact Option.noConfusion hrow

/-- A field present in a row survives any further property assignment. -/
theorem lookup_objInsert_isSome (row : Row) (name nm v : Str)
    (h : (List.lookup name row).isSome = true) :
    (List.lookup name (objInsert row nm v)).isSome = true := by
  by_cases hn : name = nm
  · subst hn
    rw [lookup_objInsert_self]
    rfl
  · rw [lookup_objInsert_other _ _ _ _ hn]
    exact h

/-- The assignment `lst[idx][name] = value` makes index `idx` a row
containing `name`. -/
theorem rowHas_listSet_self (l : SparseRows) (j : Nat) (nm v : Str) :
    rowHas (listSet l j nm v) j nm := by
  unfold listSet rowHas
  set grown := if l.length ≤ j then l ++ List.replicate (j + 1 - l.length) none else l
    with hg
  have hlen : j < grown.length := by
    rw [hg]
    split
    · simp
      omega
    · omega
  refine ⟨objInsert ((grown.getD j none).getD []) nm v, ?_, ?_⟩
  · rw [List.getD_eq_getElem?_getD, List.getElem?_set_eq_of_lt _ hlen]
    rfl
  · rw [lookup_objInsert_self]
    rfl

/-- The assignment `lst[j][nm] = v` preserves every occupied index. -/
theorem rowHas_listSet (l : SparseRows) (i j : Nat) (name nm v : Str)
    (h : rowHas l i name) : rowHas (listSet l j nm v) i name := by
  obtain ⟨row, hrow, hlook⟩ := h
  have hi : i < l.length := rowHas_lt_length l i name ⟨row, hrow, hlook⟩
  unfold listSet
  set grown := if l.length ≤ j then l ++ List.replicate (j + 1 - l.length) none else l
    with hg
  have hgrow : grown.getD i none = some row := by
    rw [hg]
    split
    · rw [List.getD_append _ _ _ _ hi]
      exact hrow
    · exact hrow
  by_cases hij : i = j
  · subst hij
    refine ⟨objInsert ((grown.getD i none).getD []) nm v, ?_, ?_⟩
    · have hlen : i < grown.length := by
        rw [hg]
        split
        · simp
          omega
        · omega
      rw [List.getD_eq_getElem?_getD, List.getElem?_set_eq_of_lt _ hlen]
      rfl
    · rw [hgrow]
      exact lookup_objInsert_isSome row name nm v hlook
  · refine ⟨row, ?_, hlook⟩
    rw [List.getD_eq_getElem?_getD, List.getElem?_set_ne (fun hh => hij hh.symm),
      ← List.getD_eq_getElem?_getD]
    exact hgrow

/-- The entry loop preserves every occupied index of the row list. -/
theorem rowHas_foldl (entries : List (Str × Str)) (s : List (Str × Str))
    (l : SparseRows) (i : Nat) (name : Str) (h : rowHas l i name) :
    rowHas (entries.foldl nvpEntriesStep (s, l)).2 i name := by
  induction entries generalizing s l with
  | nil => exact h
  | cons kv rest ih =>
    rw [List.foldl_cons]
    cases hm : lMatch kv.1 with
    | none =>
      simp only [nvpEntriesStep, hm]
      exact ih _ _ h
    | some nd =>
      simp only [nvpEntriesStep, hm]
      exact ih _ _ (rowHas_listSet _ _ _ _ _ _ h)

/-- The scalar side of the entry loop collects exactly the entries whose
keys do not match the `L_LIST` pattern, in order. -/
theorem foldl_nvpEntriesStep_fst (entries : List (Str × Str)) (s : List (Str × Str))
    (l : SparseRows) :
    (entries.foldl nvpEntriesStep (s, l)).1 =
      s ++ entries.filter (fun kv => (lMatch kv.1).isNone) := by
  induction entries generalizing s l with
  | nil => simp
  | cons kv rest ih =>
    rw [List.foldl_cons]
    cases hm : lMatch kv.1 with
    | none =>
      simp only [nvpEntriesStep, hm]
      rw [ih]
      simp [List.filter_cons, hm]
    | some nd =>
      simp only [nvpEntriesStep, hm]
      rw [ih]
      simp [List.filter_cons, hm]

/-- Once the row list is nonempty it stays nonempty through the loop. -/
theorem foldl_nvpEntriesStep_snd_ne_nil (entries : List (Str × Str))
    (s : List (Str × Str)) (l : SparseRows) (h : l ≠ []) :
    (entries.foldl nvpEntriesStep (s, l)).2 ≠ [] := by
  induction entries generalizing s l with
  | nil => exact h
  | cons kv rest ih =>
    rw [List.foldl_cons]
    cases hm : lMatch kv.1 with
    | none =>
      simp only [nvpEntriesStep, hm]
      exact ih _ _ h
    | some nd =>
      simp only [nvpEntriesStep, hm]
      exact ih _ _ (listSet_ne_nil _ _ _ _)

/-- The row list built by the entry loop is empty exactly when it started
empty and no processed key matched the `L_LIST` pattern. -/
theorem foldl_nvpEntriesStep_snd_eq_nil (entries : List (Str × Str))
    (s : List (Str × Str)) (l : SparseRows) :
    (entries.foldl nvpEntriesStep (s, l)).2 = [] ↔
      l = [] ∧ ∀ kv ∈ entries, lMatch kv.1 = none := by
  induction entries generalizing s l with
  | nil => simp
  | cons kv rest ih =>
    rw [List.foldl_cons]
    cases hm : lMatch kv.1 with
    | none =>
      simp only [nvpEntriesStep, hm]
      rw [ih]
      simp [hm]
    | some nd =>
      simp only [nvpEntriesStep, hm]
      constructor
      · intro hc
        exact absurd hc (foldl_nvpEntriesStep_snd_ne_nil _ _ _ (listSet_ne_nil _ _ _ _))
      · rintro ⟨-, hall⟩
        have hkv := hall kv (by simp)
        rw [hm] at hkv
        exact Option.noConfusion hkv

/-- A key matching the `L_LIST` pattern is never found among the scalars
kept by the loop. -/
theorem lookup_filter_isNone (entries : List (Str × Str)) (k : Str)
    (h : lMatch k ≠ none) :
    List.lookup k (entries.filter (fun kv => (lMatch kv.1).isNone)) = none := by
  induction entries with
  | nil => rfl
  | cons kv rest ih =>
    by_cases hk : (lMatch kv.1).isNone = true
    · rw [List.filter_cons, if_pos (by simpa using hk)]
      have hne : (k == kv.1) = false := by
        refine beq_eq_false_iff_ne.2 ?_
        intro hkk
        subst hkk
        exact h (Option.isNone_iff_eq_none.1 hk)
      simp [List.lookup, hne, ih]
    · rw [List.filter_cons, if_neg (by simpa using hk)]
      exact ih

/-- An entry whose key matches the pattern lands in the derived list. -/
theorem foldl_rowHas_of_mem (entries : List (Str × Str)) (s : List (Str × Str))
    (l : SparseRows) (k v name ds : Str)
    (hm : lMatch k = some (name, ds)) (hmem : (k, v) ∈ entries) :
    rowHas (entries.foldl nvpEntriesStep (s, l)).2 (digitsToNat ds) name := by
  induction entries generalizing s l with
  | nil => cases hmem
  | cons kv rest ih =>
    rw [List.foldl_cons]
    rcases List.mem_cons.1 hmem with heq | hmem2
    · have hkv : kv = (k, v) := heq.symm
      subst hkv
      simp only [nvpEntriesStep, hm]
      exact rowHas_foldl _ _ _ _ _ (rowHas_listSet_self _ _ _ _)
    · cases hstep : lMatch kv.1 with
      | none =>
        simp only [nvpEntriesStep, hstep]
        exact ih _ _ hmem2
      | some nd =>
        simp only [nvpEntriesStep, hstep]
        exact ih _ _ hmem2

/-- Any entry whose key matches the `L_LIST` pattern is routed into the
derived `L` list at the captured index under the captured name, and its
key never appears among the decoded scalars. -/
theorem nvpEntriesToObject_routed (entries : List (Str × Str)) (k v name ds : Str)
    (hm : lMatch k = some (name, ds)) (hmem : (k, v) ∈ entries) :
    (∃ rows, (nvpEntriesToObject entries).lst = some rows ∧
      rowHas rows (digitsToNat ds) name) ∧
    List.lookup k (nvpEntriesToObject entries).scalars = none := by
  have hrow := foldl_rowHas_of_mem entries [] [] k v name ds hm hmem
  have hne : (entries.foldl nvpEntriesStep ([], [])).2 ≠ [] := by
    intro hc
    obtain ⟨row, hrow2, -⟩ := hrow
    rw [hc, List.getD_eq_default _ _ (by simp)] at hrow2
    exact Option.noConfusion hrow2
  constructor
  · refine ⟨(entries.foldl nvpEntriesStep ([], [])).2, ?_, hrow⟩
    simp only [nvpEntriesToObject]
    rw [if_neg (by simpa [List.isEmpty_iff] using hne)]
  · simp only [nvpEntriesToObject]
    rw [foldl_nvpEntriesStep_fst]
    simp only [List.nil_append]
    refine lookup_filter_isNone entries k ?_
    rw [hm]
    exact fun hc => Option.noConfusion hc

/-- `takeWhile` passes over a block that satisfies the predicate. -/
theorem takeWhile_append_of_all {p : Nat → Bool} (xs ys : List Nat)
    (h : ∀ x ∈ xs, p x = true) :
    (xs ++ ys).takeWhile p = xs ++ ys.takeWhile p := by
  induction xs with
  | nil => simp
  | cons x rest ih =>
    simp [List.takeWhile_cons, h x (by simp),
      ih (fun y hy => h y (by simp [hy]))]

/-- `dropWhile` drops a whole block that satisfies the predicate. -/
theorem dropWhile_append_of_all {p : Nat → Bool} (xs ys : List Nat)
    (h : ∀ x ∈ xs, p x = true) :
    (xs ++ ys).dropWhile p = ys.dropWhile p := by
  induction xs with
  | nil => simp
  | cons x rest ih =>
    simp [List.dropWhile_cons, h x (by simp),
      ih (fun y hy => h y (by simp [hy]))]

/-- A key that is literally `L_` + letters + digits matches the pattern
with exactly those capture groups. -/
theorem lMatch_exact (name ds : Str) (hn : name ≠ [])
    (hnu : ∀ b ∈ name, isUpperByte b = true)
    (hd : ds ≠ []) (hdd : ∀ b ∈ ds, isDigitByte b = true) :
    lMatch (76 :: 95 :: (name ++ ds)) = some (name, ds) := by
  have hnotup : ∀ b ∈ ds, isUpperByte b = false := by
    intro b hb
    have hdig := hdd b hb
    simp only [isDigitByte, Bool.and_eq_true, decide_eq_true_eq] at hdig
    rw [Bool.eq_false_iff]
    intro hup
    simp only [isUpperByte, Bool.and_eq_true, decide_eq_true_eq] at hup
    omega
  have htake : (name ++ ds).takeWhile (fun b => isUpperByte b) = name := by
    rw [takeWhile_append_of_all _ _ hnu]
    rcases ds with _ | ⟨d, rest⟩
    · simp
    · simp [List.takeWhile_cons, hnotup d (by simp)]
  have hdrop : (name ++ ds).dropWhile (fun b => isUpperByte b) = ds := by
    rw [dropWhile_append_of_all _ _ hnu]
    rcases ds with _ | ⟨d, rest⟩
    · simp
    · simp [List.dropWhile_cons, hnotup d (by simp)]
  simp only [lMatch]
  rw [if_pos (by simp)]
  simp only [splitLettersDigits, htake, hdrop]
  rw [if_pos ⟨hn, hd, by simpa [List.all_eq_true] using hdd⟩]

/-- C4: `nvpToObject` routes `L_<NAME><index>` keys into the row at the
numeric index of the derived list `L` (so `L_NAME0=a, L_NAME1=b` decode
to two rows in index order); non-contiguous indices leave holes rather
than being compacted; such a key never appears as a scalar; and the `L`
field is present if and only if at least one ordinal key was present. -/
theorem nvpToObject_list_decoding :
    nvpToObject (bytesOf ("L_NAME0=a&L_NAME1=b")) =
      { scalars := [],
        lst := some [some [(bytesOf ("NAME"), bytesOf ("a"))],
                     some [(bytesOf ("NAME"), bytesOf ("b"))]] } ∧
    nvpToObject (bytesOf ("L_NAME1=b")) =
      { scalars := [], lst := some [none, some [(bytesOf ("NAME"), bytesOf ("b"))]] } ∧
    (∀ entries : List (Str × Str),
      (nvpEntriesToObject entries).lst = none ↔ ∀ kv ∈ entries, lMatch kv.1 = none) ∧
    (∀ (entries : List (Str × Str)) (name ds v : Str),
      name ≠ [] → (∀ b ∈ name, isUpperByte b = true) →
      ds ≠ [] → (∀ b ∈ ds, isDigitByte b = true) →
      (76 :: 95 :: (name ++ ds), v) ∈ entries →
      (∃ rows, (nvpEntriesToObject entries).lst = some rows ∧
        rowHas rows (digitsToNat ds) name) ∧
      List.lookup (76 :: 95 :: (name ++ ds)) (nvpEntriesToObject entries).scalars =
        none) := by
  refine ⟨by decide, by decide, ?_, ?_⟩
  · intro entries
    have hiff := foldl_nvpEntriesStep_snd_eq_nil entries [] []
    simp only [nvpEntriesToObject]
    by_cases hc : (entries.foldl nvpEntriesStep ([], [])).2 = []
    · rw [hc]
      simp only [List.isEmpty_nil, if_true]
      exact iff_of_true (by trivial) ((hiff.1 hc).2)
    · rw [if_neg (by simpa [List.isEmpty_iff] using hc)]
      refine iff_of_false (fun hh => Option.noConfusion hh) ?_
      intro hall
      exact hc (hiff.2 ⟨rfl, hall⟩)
  · intro entries name ds v hn hnu hd hdd hmem
    exact nvpEntriesToObject_routed entries _ v name ds
      (lMatch_exact name ds hn hnu hd hdd) hmem

/-- Witness for C4: a scalar-only entry list yields no `L` field, while a
single `L_NAME0` entry yields one. -/
theorem nvpToObject_list_decoding_witness :
    (nvpEntriesToObject [(bytesOf ("ACK"), bytesOf ("Success"))]).lst = none ∧
    (nvpEntriesToObject [(bytesOf ("L_NAME0"), bytesOf ("a"))]).lst ≠ none := by
  constructor
  · exact (nvpToObject_list_decoding.2.2.1 _).2 (by decide)
  · obtain ⟨rows, hsome, -⟩ := (nvpToObject_list_decoding.2.2.2
      [(bytesOf ("L_NAME0"), bytesOf ("a"))] (bytesOf ("NAME")) (bytesOf ("0"))
      (bytesOf ("a")) (by decide) (by decide) (by decide) (by decide) (by decide)).1
    rw [hsome]
    exact fun hc => Option.noConfusion hc

/-- C10: the `L_LIST` pattern is anchored only at the end of the key, so
a key with extra leading characters whose suffix matches
`L_<LETTERS><DIGITS>` — such as `XL_NAME0` or `TOTAL_FOO1` — is routed
into the derived `L` list under the matched name and index, and is not
copied verbatim into the scalar result. -/
theorem lMatch_suffix_routing :
    lMatch (bytesOf ("XL_NAME0")) = some (bytesOf ("NAME"), bytesOf ("0")) ∧
    lMatch (bytesOf ("TOTAL_FOO1")) = some (bytesOf ("FOO"), bytesOf ("1")) ∧
    nvpToObject (bytesOf ("XL_NAME0=a")) =
      { scalars := [], lst := some [some [(bytesOf ("NAME"), bytesOf ("a"))]] } ∧
    nvpToObject (bytesOf ("TOTAL_FOO1=b")) =
      { scalars := [], lst := some [none, some [(bytesOf ("FOO"), bytesOf ("b"))]] } ∧
    (∀ (entries : List (Str × Str)) (k v name ds : Str),
      lMatch k = some (name, ds) → (k, v) ∈ entries →
      (∃ rows, (nvpEntriesToObject entries).lst = some rows ∧
        rowHas rows (digitsToNat ds) name) ∧
      List.lookup k (nvpEntriesToObject entries).scalars = none) := by
  refine ⟨by decide, by decide, by decide, by decide, ?_⟩
  intro entries k v name ds hm hmem
  exact nvpEntriesToObject_routed entries k v name ds hm hmem

/-- Witness for C10: the suffix-matching key `XL_NAME0` is routed into
the list and absent from the scalars. -/
theorem lMatch_suffix_routing_witness :
    List.lookup (bytesOf ("XL_NAME0"))
      (nvpEntriesToObject [(bytesOf ("XL_NAME0"), bytesOf ("a"))]).scalars = none ∧
    (nvpEntriesToObject [(bytesOf ("XL_NAME0"), bytesOf ("a"))]).lst ≠ none := by
  have hpair := lMatch_suffix_routing.2.2.2.2
    [(bytesOf ("XL_NAME0"), bytesOf ("a"))] (bytesOf ("XL_NAME0"))
    (bytesOf ("a")) (bytesOf ("NAME")) (bytesOf ("0")) (by decide) (by decide)
  refine ⟨hpair.2, ?_⟩
  obtain ⟨rows, hsome, -⟩ := hpair.1
  rw [hsome]
  exact fun hc => Option.noConfusion hc

/-- Hex digits of values below 16 pass the hex test. -/
theorem isHexByte_hexDigitByte (d : Nat) (h : d < 16) :
    isHexByte (hexDigitByte d) = true := by
  unfold hexDigitByte isHexByte
  split <;> simp <;> omega

/-- Decoding a hex digit of a value below 16 recovers the value. -/
theorem hexVal_hexDigitByte (d : Nat) (h : d < 16) :
    hexVal (hexDigitByte d) = d := by
  unfold hexDigitByte hexVal
  split_ifs <;> omega

/-- Unreserved bytes are never `+` (43) or `%` (37). -/
theorem unreservedByte_not_special (b : Nat) (h : unreservedByte b = true) :
    b ≠ 43 ∧ b ≠ 37 := by
  simp only [unreservedByte, Bool.or_eq_true, Bool.and_eq_true, decide_eq_true_eq,
    beq_iff_eq] at h
  omega

/-- The escaped form of any byte contains neither `&` (38) nor `=` (61). -/
theorem escapeByte_sep_free (b : Nat) : ∀ x ∈ escapeByte b, x ≠ 38 ∧ x ≠ 61 := by
  intro x hx
  unfold escapeByte at hx
  split at hx
  · rename_i hu
    rw [List.mem_singleton] at hx
    subst hx
    simp only [unreservedByte, Bool.or_eq_true, Bool.and_eq_true, decide_eq_true_eq,
      beq_iff_eq] at hu
    omega
  · simp only [List.mem_cons, List.not_mem_nil, or_false] at hx
    have hd : ∀ d : Nat, hexDigitByte d ≠ 38 ∧ hexDigitByte d ≠ 61 := by
      intro d
      unfold hexDigitByte
      split <;> omega
    rcases hx with rfl | rfl | rfl
    · omega
    · exact hd _
    · exact hd _

/-- No byte of an escaped string is `&` (38) or `=` (61). -/
theorem escape_sep_free (s : Str) : ∀ x ∈ escape s, x ≠ 38 ∧ x ≠ 61 := by
  intro x hx
  unfold escape at hx
  rw [List.mem_flatten] at hx
  obtain ⟨seg, hseg, hxseg⟩ := hx
  rw [List.mem_map] at hseg
  obtain ⟨b, -, hb⟩ := hseg
  rw [← hb] at hxseg
  exact escapeByte_sep_free b x hxseg

/-- Unescaping the escaped form of a byte string, followed by any tail,
recovers the string and continues on the tail. -/
theorem unescape_escape_append (s t : Str) (h : ∀ b ∈ s, b < 256) :
    unescape (escape s ++ t) = s ++ unescape t := by
  induction s with
  | nil => simp [escape]
  | cons b rest ih =>
    have hb : b < 256 := h b (by simp)
    have hrest : ∀ x ∈ rest, x < 256 := fun x hx => h x (by simp [hx])
    have hesc : escape (b :: rest) = escapeByte b ++ escape rest := by
      simp [escape]
    rw [hesc, List.append_assoc]
    by_cases hu : unreservedByte b
    · have hne := unreservedByte_not_special b hu
      rw [show escapeByte b = [b] from by simp [escapeByte, hu]]
      simp only [List.cons_append, List.nil_append]
      rw [show unescape (b :: (escape rest ++ t)) = b :: unescape (escape rest ++ t)
        from by simp [unescape, hne.1, hne.2]]
      rw [ih hrest]
    · rw [show escapeByte b = [37, hexDigitByte (b / 16), hexDigitByte (b % 16)]
        from by simp [escapeByte, hu]]
      simp only [List.cons_append, List.nil_append]
      have hx1 : isHexByte (hexDigitByte (b / 16)) = true :=
        isHexByte_hexDigitByte _ (by omega)
      have hx2 : isHexByte (hexDigitByte (b % 16)) = true :=
        isHexByte_hexDigitByte _ (by omega)
      rw [show unescape (37 :: hexDigitByte (b / 16) :: hexDigitByte (b % 16) ::
          (escape rest ++ t)) =
          (hexVal (hexDigitByte (b / 16)) * 16 + hexVal (hexDigitByte (b % 16))) ::
          unescape (escape rest ++ t)
        from by simp [unescape, hx1, hx2]]
      rw [hexVal_hexDigitByte _ (by omega), hexVal_hexDigitByte _ (by omega),
        ih hrest]
      have hbv : b / 16 * 16 + b % 16 = b := by omega
      rw [hbv]

/-- Unescaping an escaped byte string recovers the string. -/
theorem unescape_escape (s : Str) (h : ∀ b ∈ s, b < 256) :
    unescape (escape s) = s := by
  have hh := unescape_escape_append s [] h
  simpa [unescape] using hh

/-- Splitting at the first `=` after an `=`-free block finds that block. -/
theorem splitFirstEq_append (xs ys : Str) (h : ∀ b ∈ xs, b ≠ 61) :
    splitFirstEq (xs ++ 61 :: ys) = some (xs, ys) := by
  induction xs with
  | nil => simp [splitFirstEq]
  | cons b rest ih =>
    have hb : b ≠ 61 := h b (by simp)
    simp only [List.cons_append, splitFirstEq, if_neg hb, List.append_eq]
    rw [ih (fun x hx => h x (by simp [hx]))]
    rfl

/-- Parsing one stringified `key=value` segment recovers the pair. -/
theorem parseSegment_pair (k v : Str) (hk : ∀ b ∈ k, b < 256)
    (hv : ∀ b ∈ v, b < 256) :
    parseSegment (escape k ++ 61 :: escape v) = some (k, v) := by
  unfold parseSegment
  rw [splitFirstEq_append _ _ (fun b hb => (escape_sep_free k b hb).2)]
  simp [unescape_escape k hk, unescape_escape v hv]

/-- Parsing the stringified form of a flat map recovers its entries. -/
theorem nvpParse_objectToNVP (m : List (Str × Str))
    (hb : ∀ kv ∈ m, (∀ b ∈ kv.1, b < 256) ∧ (∀ b ∈ kv.2, b < 256)) :
    nvpParse (objectToNVP m) = m := by
  have hfold : ∀ (mm : List (Str × Str)),
      (∀ kv ∈ mm, (∀ b ∈ kv.1, b < 256) ∧ (∀ b ∈ kv.2, b < 256)) →
      (mm.map (fun kv => escape kv.1 ++ 61 :: escape kv.2)).foldr
        (fun seg acc =>
          match parseSegment seg with
          | some kv => kv :: acc
          | none => acc) [] = mm := by
    intro mm hmm
    induction mm with
    | nil => rfl
    | cons kv rest ih =>
      simp only [List.map_cons, List.foldr_cons]
      rw [parseSegment_pair kv.1 kv.2 (hmm kv (by simp)).1 (hmm kv (by simp)).2]
      rw [ih (fun x hx => hmm x (by simp [hx]))]
  rcases hm : m with _ | ⟨kv0, mrest⟩
  · rfl
  · rw [← hm]
    unfold nvpParse objectToNVP
    rw [List.splitOn_intercalate _ 38
      (by
        intro l hl
        rw [List.mem_map] at hl
        obtain ⟨kv, -, hkv⟩ := hl
        rw [← hkv]
        intro hmem
        rcases List.mem_append.1 hmem with hmem | hmem
        · exact (escape_sep_free kv.1 38 hmem).1 rfl
        · rcases List.mem_cons.1 hmem with hmem | hmem
          · omega
          · exact (escape_sep_free kv.2 38 hmem).1 rfl)
      (by
        rw [hm]
        simp)]
    exact hfold m hb

/-- C8: decoding the encoding of a flat map whose keys do not match the
`L_<NAME><index>` ordinal convention yields the original map back:
`nvpToObject (objectToNVP m)` returns exactly the entries of `m` as
scalars and no derived `L` field.  The hypotheses restrict to the domain
the source actually handles: byte-valued strings and JS-object maps
(unique keys). -/
theorem nvp_roundtrip (m : List (Str × Str))
    (hkeys : (m.map Prod.fst).Nodup)
    (hb : ∀ kv ∈ m, (∀ b ∈ kv.1, b < 256) ∧ (∀ b ∈ kv.2, b < 256))
    (hnoL : ∀ kv ∈ m, lMatch kv.1 = none) :
    nvpToObject (objectToNVP m) = { scalars := m, lst := none } := by
  unfold nvpToObject
  rw [nvpParse_objectToNVP m hb]
  simp only [nvpEntriesToObject]
  have h2 : (m.foldl nvpEntriesStep ([], [])).2 = [] :=
    (foldl_nvpEntriesStep_snd_eq_nil m [] []).2 ⟨rfl, hnoL⟩
  have h1 : (m.foldl nvpEntriesStep ([], [])).1 = m := by
    rw [foldl_nvpEntriesStep_fst]
    rw [List.nil_append]
    rw [List.filter_eq_self.2 (fun kv hkv => by simp [hnoL kv hkv])]
  rw [h1, h2]
  simp

/-- Witness for C8: a concrete two-field map with special characters in a
value survives the round trip. -/
theorem nvp_roundtrip_witness :
    nvpToObject (objectToNVP
      [(bytesOf ("ACK"), bytesOf ("Success")),
       (bytesOf ("AMT"), bytesOf ("10.99&x=y"))]) =
      { scalars := [(bytesOf ("ACK"), bytesOf ("Success")),
                    (bytesOf ("AMT"), bytesOf ("10.99&x=y"))], lst := none } :=
  nvp_roundtrip _ (by decide) (by decide) (by decide)

end FxaPaypal
